import Mathlib

/-!
Verification of the concurrent producer/consumer core of the repository:
the thread-safe command channel `SafeQueue` (SafeQueue.h) and the worker
manager `ThreadPool` (ThreadPool.h / threadPool.cpp).

All channel operations run under one mutex (`m_mutex`), so an execution is a
serialization of atomic critical sections.  The embedding models the state
protected by that mutex (`m_queue`, `m_stop`) directly, plus a ghost layer for
traces and for the condition-variable waiter set where a claim needs it.

Note on the source: `SafeQueue::pop` is missing the statement terminator after
`return true`; per the intended contract stated in the header's doc comment
("True if an item was popped, false if the queue is stopped and empty") the
embedding reads it as `return true;`.
-/

/-- State of `SafeQueue<T>` (SafeQueue.h): the pending FIFO `m_queue`
(`std::queue`, front at the list head, push at the back) and the `m_stop`
flag.  The mutex and condition variable have no state of their own here;
blocking and wakeups are modelled at the call sites that use them. -/
structure SafeQueue (T : Type) where
  m_queue : List T
  m_stop : Bool
  deriving DecidableEq, Repr

namespace SafeQueue

/-- `SafeQueue::push` (SafeQueue.h lines 22-36): under the lock, if `m_stop`
is set return at once (the item is discarded); otherwise append the item to
the back of `m_queue` (and `notify_one`, modelled in `pushSys` below). -/
def push {T : Type} (item : T) (q : SafeQueue T) : SafeQueue T :=
  if q.m_stop then q
  else { q with m_queue := q.m_queue ++ [item] }

/-- Outcome of one `SafeQueue::pop` call: `value v q1` is `return true` with
the popped item `v` and successor state `q1`; `stopped q1` is `return false`;
`blocked` means the wait predicate `m_stop || !m_queue.empty()` is false, so
the call does not return and the thread stays on the condition variable. -/
inductive PopResult (T : Type) where
  | value (item : T) (q1 : SafeQueue T)
  | stopped (q1 : SafeQueue T)
  | blocked
  deriving DecidableEq, Repr

/-- `SafeQueue::pop` (SafeQueue.h lines 42-56).  The call waits until
`m_stop || !m_queue.empty()`: with an empty queue and `m_stop` false that
predicate is false and the call blocks.  Once awake, `if (m_stop &&
m_queue.empty()) return false;` fires exactly when the queue is empty (the
wait predicate then forces `m_stop`); otherwise the front element is moved
out, popped, and `return true`. -/
def pop {T : Type} (q : SafeQueue T) : PopResult T :=
  match q.m_queue with
  | [] => if q.m_stop then PopResult.stopped q else PopResult.blocked
  | item :: rest => PopResult.value item { q with m_queue := rest }

/-- `SafeQueue::stop` (SafeQueue.h lines 62-66): under the lock set
`m_stop = true` (and `notify_all`, modelled in `stopSys` below). -/
def stop {T : Type} (q : SafeQueue T) : SafeQueue T :=
  { q with m_stop := true }

theorem pop_eq_blocked_iff {T : Type} (q : SafeQueue T) :
    pop q = PopResult.blocked ↔ q.m_queue = [] ∧ q.m_stop = false := by
  cases q with
  | mk qu st =>
    cases qu with
    | nil => cases st <;> simp [pop]
    | cons a l => simp [pop]

theorem pop_eq_stopped_iff {T : Type} (q q1 : SafeQueue T) :
    pop q = PopResult.stopped q1 ↔ q1 = q ∧ q.m_stop = true ∧ q.m_queue = [] := by
  cases q with
  | mk qu st =>
    cases qu with
    | nil =>
      cases st <;> simp [pop, eq_comm]
    | cons a l => simp [pop]

theorem pop_eq_value_iff {T : Type} (q q1 : SafeQueue T) (v : T) :
    pop q = PopResult.value v q1 ↔
      q.m_queue = v :: q1.m_queue ∧ q1.m_stop = q.m_stop := by
  cases q with
  | mk qu st =>
    cases qu with
    | nil =>
      cases st <;> simp [pop]
    | cons a l =>
      cases q1 with
      | mk qu1 st1 =>
        constructor
        · intro h
          simp [pop] at h
          simp [h.1, h.2.1, h.2.2]
        · intro h
          simp at h
          simp [pop, h.1.1, h.1.2, h.2]

theorem push_m_stop {T : Type} (v : T) (q : SafeQueue T) :
    (push v q).m_stop = q.m_stop := by
  by_cases h : q.m_stop <;> simp [push, h]

end SafeQueue

/-- Model of `std::condition_variable::notify_one` acting on the ids of the
threads currently blocked on the variable: at most one waiter is woken
(removed from the blocked set). -/
def notifyOne (waiters : List Nat) : List Nat := waiters.drop 1

/-- Model of `std::condition_variable::notify_all`: every waiter is woken, so
the blocked set becomes empty. -/
def notifyAll (_waiters : List Nat) : List Nat := []

/-- Channel plus condition-variable state: the `SafeQueue` fields together
with the ids of the threads currently blocked inside `pop`'s wait on
`m_condition`. -/
structure ChanSys (T : Type) where
  chan : SafeQueue T
  blocked : List Nat
  deriving DecidableEq, Repr

/-- `SafeQueue::push` at the condition-variable level: when `m_stop` is set
the function returns before reaching `notify_one`, so nothing changes;
otherwise the item is enqueued and `m_condition.notify_one()` wakes at most
one blocked thread. -/
def pushSys {T : Type} (item : T) (s : ChanSys T) : ChanSys T :=
  if s.chan.m_stop then s
  else { chan := SafeQueue.push item s.chan, blocked := notifyOne s.blocked }

/-- `SafeQueue::stop` at the condition-variable level: sets `m_stop` and
`m_condition.notify_all()` wakes every blocked thread. -/
def stopSys {T : Type} (s : ChanSys T) : ChanSys T :=
  { chan := SafeQueue.stop s.chan, blocked := notifyAll s.blocked }

/-- The `more` flags returned by `n` successive completed `pop` calls taken
from state `q`, in the serialization order of the mutex (so `n` concurrent
callers appear as `n` entries).  A call that blocks completes nothing, so it
ends the list. -/
def popFlags {T : Type} : Nat → SafeQueue T → List Bool
  | 0, _ => []
  | Nat.succ n, q =>
    match SafeQueue.pop q with
    | SafeQueue.PopResult.value _ q1 => true :: popFlags n q1
    | SafeQueue.PopResult.stopped q1 => false :: popFlags n q1
    | SafeQueue.PopResult.blocked => []

/-- One completed atomic channel operation, as serialized by `m_mutex`:
a `push` of a value by the producer, a completed `pop` wake-up by some
consumer (which consumes the front, returns false, or finds the wait
predicate still false and keeps waiting), or a `stop`. -/
inductive Ev (T : Type) where
  | push (v : T)
  | pop
  | stop
  deriving DecidableEq, Repr

/-- The value submitted by an event, when it is a `push`. -/
def pushedVal {T : Type} : Ev T → Option T
  | Ev.push v => some v
  | Ev.pop => none
  | Ev.stop => none

/-- Channel state plus ghost history: `accepted` lists the values the channel
actually enqueued (pushes that arrived before stop), `consumed` lists the
values returned by completed `pop` calls in completion order across all
consumers, and `term` records whether some `pop` has already returned
`false`. -/
structure RunState (T : Type) where
  q : SafeQueue T
  accepted : List T
  consumed : List T
  term : Bool
  deriving DecidableEq, Repr

/-- Effect of one serialized channel operation on the state and the ghost
history.  A blocked `pop` changes nothing: the thread re-waits (this also
covers spurious wakeups, which re-check the predicate and sleep again). -/
def step {T : Type} (s : RunState T) : Ev T → RunState T
  | Ev.push v =>
    { s with q := SafeQueue.push v s.q,
             accepted := if s.q.m_stop then s.accepted else s.accepted ++ [v] }
  | Ev.stop => { s with q := SafeQueue.stop s.q }
  | Ev.pop =>
    match SafeQueue.pop s.q with
    | SafeQueue.PopResult.blocked => s
    | SafeQueue.PopResult.stopped q1 => { s with q := q1, term := true }
    | SafeQueue.PopResult.value v q1 =>
      { s with q := q1, consumed := s.consumed ++ [v] }

/-- Run a serialized trace of channel operations. -/
def run {T : Type} (s : RunState T) (es : List (Ev T)) : RunState T :=
  es.foldl step s

/-- The channel as created by the orchestrator: empty queue, not stopped,
empty history. -/
def initState (T : Type) : RunState T :=
  { q := { m_queue := [], m_stop := false }, accepted := [], consumed := [], term := false }

/-- Channel invariant: the consumed values followed by the still-pending queue
are exactly the accepted values (exactly-once delivery in order), and once a
`pop` has returned false the channel is stopped with an empty queue. -/
def ChanInv {T : Type} (s : RunState T) : Prop :=
  s.consumed ++ s.q.m_queue = s.accepted ∧
    (s.term = true → s.q.m_stop = true ∧ s.q.m_queue = [])

theorem chanInv_init (T : Type) : ChanInv (initState T) := by
  constructor <;> simp [initState, ChanInv]

theorem chanInv_step {T : Type} {s : RunState T} (e : Ev T) (h : ChanInv s) :
    ChanInv (step s e) := by
  obtain ⟨h1, h2⟩ := h
  cases e with
  | push v =>
    by_cases hstop : s.q.m_stop
    · constructor
      · simpa [step, SafeQueue.push, hstop] using h1
      · intro ht
        simpa [step, SafeQueue.push, hstop] using h2 (by simpa [step] using ht)
    · constructor
      · simp [step, SafeQueue.push, hstop, ← h1]
      · intro ht
        have := h2 (by simpa [step] using ht)
        exact absurd this.1 (by simpa using hstop)
  | stop =>
    constructor
    · simpa [step, SafeQueue.stop] using h1
    · intro ht
      have := h2 (by simpa [step] using ht)
      simp [step, SafeQueue.stop, this.2]
  | pop =>
    rcases hp : SafeQueue.pop s.q with ⟨v, q1⟩ | q1 | _
    · have hv := (SafeQueue.pop_eq_value_iff s.q q1 v).mp hp
      constructor
      · simp [step, hp]
        rw [← h1, hv.1]
      · intro ht
        have := h2 (by simpa [step, hp] using ht)
        rw [this.2] at hv
        exact absurd hv.1 (by simp)
    · have hs := (SafeQueue.pop_eq_stopped_iff s.q q1).mp hp
      constructor
      · simpa [step, hp, hs.1] using h1
      · intro _
        simp [step, hp, hs.1, hs.2.1, hs.2.2]
    · have hstep : step s Ev.pop = s := by simp [step, hp]
      rw [hstep]
      exact ⟨h1, h2⟩

theorem chanInv_run {T : Type} {s : RunState T} (es : List (Ev T)) (h : ChanInv s) :
    ChanInv (run s es) := by
  induction es generalizing s with
  | nil => simpa [run] using h
  | cons e es ih => simpa [run] using ih (chanInv_step e h)

theorem step_pop_frame {T : Type} (s : RunState T) :
    (step s Ev.pop).accepted = s.accepted ∧ (step s Ev.pop).q.m_stop = s.q.m_stop := by
  rcases hp : SafeQueue.pop s.q with ⟨v, q1⟩ | q1 | _
  · exact ⟨by simp [step, hp], by
      simp [step, hp, ((SafeQueue.pop_eq_value_iff s.q q1 v).mp hp).2]⟩
  · have hq := ((SafeQueue.pop_eq_stopped_iff s.q q1).mp hp).1
    exact ⟨by simp [step, hp], by simp [step, hp, hq]⟩
  · exact ⟨by simp [step, hp], by simp [step, hp]⟩

theorem run_accepted_of_no_stop {T : Type} (es : List (Ev T)) :
    ∀ s : RunState T, s.q.m_stop = false → (∀ e ∈ es, e ≠ Ev.stop) →
      (run s es).accepted = s.accepted ++ es.filterMap pushedVal ∧
        (run s es).q.m_stop = false := by
  induction es with
  | nil => intro s h _; simp [run, h]
  | cons e es ih =>
    intro s h hall
    have htail : ∀ e2 ∈ es, e2 ≠ Ev.stop := fun e2 hm => hall e2 (by simp [hm])
    cases e with
    | push v =>
      have hstep : (step s (Ev.push v)).q.m_stop = false := by
        simp [step, SafeQueue.push_m_stop, h]
      have hacc : (step s (Ev.push v)).accepted = s.accepted ++ [v] := by
        simp [step, h]
      have := ih (step s (Ev.push v)) hstep htail
      refine ⟨?_, by simpa [run] using this.2⟩
      have h1 : (run s (Ev.push v :: es)).accepted =
          (step s (Ev.push v)).accepted ++ es.filterMap pushedVal := by
        simpa [run] using this.1
      rw [h1, hacc]
      simp [pushedVal]
    | pop =>
      have hf := step_pop_frame s
      have := ih (step s Ev.pop) (hf.2.trans h) htail
      refine ⟨?_, by simpa [run] using this.2⟩
      have h1 : (run s (Ev.pop :: es)).accepted =
          (step s Ev.pop).accepted ++ es.filterMap pushedVal := by
        simpa [run] using this.1
      rw [h1, hf.1]
      simp [pushedVal]
    | stop => exact absurd rfl (hall Ev.stop (by simp))

theorem run_accepted_of_no_push {T : Type} (es : List (Ev T)) :
    ∀ s : RunState T, (∀ e ∈ es, pushedVal e = none) →
      (run s es).accepted = s.accepted := by
  induction es with
  | nil => intro s _; simp [run]
  | cons e es ih =>
    intro s hall
    have htail : ∀ e2 ∈ es, pushedVal e2 = none := fun e2 hm => hall e2 (by simp [hm])
    have h1 : (run s (e :: es)).accepted = (step s e).accepted := by
      simpa [run] using ih (step s e) htail
    rw [h1]
    cases e with
    | push v => exact absurd (hall (Ev.push v) (by simp)) (by simp [pushedVal])
    | pop => exact (step_pop_frame s).1
    | stop => simp [step]

/-- C1: for every finite sequence of values submitted via `push` before `stop`
is called (trace `A` with no stop event, whose pushes are `vs` in order,
followed by `B` with no push event), the completed `pop` calls of all
consumers combined yield a prefix of `vs` in submission order with no
duplication, and by the time any `pop` first reports `more = false` they have
yielded exactly `vs`, with no loss. -/
theorem safeQueue_fifo_exact_delivery {T : Type} (vs : List T) (A B : List (Ev T))
    (hA : A.filterMap pushedVal = vs)
    (hAns : ∀ e ∈ A, e ≠ Ev.stop)
    (hBnp : ∀ e ∈ B, pushedVal e = none) :
    (∃ rest, (run (initState T) (A ++ B)).consumed ++ rest = vs) ∧
      ((run (initState T) (A ++ B)).term = true →
        (run (initState T) (A ++ B)).consumed = vs) := by
  have hsplit : run (initState T) (A ++ B) = run (run (initState T) A) B := by
    simp [run, List.foldl_append]
  have hAacc := run_accepted_of_no_stop A (initState T) (by simp [initState]) hAns
  have hBacc := run_accepted_of_no_push B (run (initState T) A) hBnp
  have hacc : (run (initState T) (A ++ B)).accepted = vs := by
    rw [hsplit, hBacc, hAacc.1]
    simp [initState, hA]
  have hinv := chanInv_run (A ++ B) (chanInv_init T)
  constructor
  · exact ⟨(run (initState T) (A ++ B)).q.m_queue, by rw [hinv.1, hacc]⟩
  · intro ht
    have hq := (hinv.2 ht).2
    have h1 := hinv.1
    rw [hq] at h1
    simpa [hacc] using h1

theorem safeQueue_fifo_exact_delivery_witness :
    (∃ rest, (run (initState Nat)
        ([Ev.push 1, Ev.push 2, Ev.pop] ++ [Ev.stop, Ev.pop, Ev.pop])).consumed ++ rest = [1, 2]) ∧
      ((run (initState Nat)
          ([Ev.push 1, Ev.push 2, Ev.pop] ++ [Ev.stop, Ev.pop, Ev.pop])).term = true →
        (run (initState Nat)
          ([Ev.push 1, Ev.push 2, Ev.pop] ++ [Ev.stop, Ev.pop, Ev.pop])).consumed = [1, 2]) :=
  safeQueue_fifo_exact_delivery [1, 2] [Ev.push 1, Ev.push 2, Ev.pop]
    [Ev.stop, Ev.pop, Ev.pop] (by decide) (by decide) (by decide)

/-- C2: `pop` returns the head of the pending sequence with `more = true`
whenever the sequence is non-empty; it returns `more = false` (with the state
unchanged and no value) exactly when the channel is stopped and the sequence
is empty; and it blocks exactly while the sequence is empty and the channel
is not stopped. -/
theorem pop_contract {T : Type} (q : SafeQueue T) :
    (∀ v rest, q.m_queue = v :: rest →
        SafeQueue.pop q = SafeQueue.PopResult.value v { q with m_queue := rest }) ∧
      (∀ q1, SafeQueue.pop q = SafeQueue.PopResult.stopped q1 ↔
        (q.m_stop = true ∧ q.m_queue = [] ∧ q1 = q)) ∧
      (SafeQueue.pop q = SafeQueue.PopResult.blocked ↔
        (q.m_queue = [] ∧ q.m_stop = false)) := by
  refine ⟨?_, ?_, SafeQueue.pop_eq_blocked_iff q⟩
  · intro v rest h
    rw [SafeQueue.pop_eq_value_iff]
    simp [h]
  · intro q1
    rw [SafeQueue.pop_eq_stopped_iff]
    tauto

theorem pop_contract_witness :
    SafeQueue.pop ({ m_queue := [5], m_stop := false } : SafeQueue Nat) =
      SafeQueue.PopResult.value 5 { m_queue := [], m_stop := false } :=
  (pop_contract { m_queue := [5], m_stop := false }).1 5 [] rfl

/-- C3: `stop` sets the stopped flag and (via `notify_all`) wakes every
thread blocked in `pop`, not just one — the blocked set becomes empty — so
after `stop` on an empty channel every blocked or subsequent `pop` call
returns `more = false` without deadlock: `n` successive completed calls, for
any `n` concurrent callers, all return `false` and none blocks. -/
theorem stop_wakes_all {T : Type} (s : ChanSys T) (hempty : s.chan.m_queue = []) :
    (stopSys s).chan.m_stop = true ∧ (stopSys s).blocked = [] ∧
      (∀ n : Nat, popFlags n (stopSys s).chan = List.replicate n false) := by
  refine ⟨rfl, rfl, ?_⟩
  have hq : (stopSys s).chan = { m_queue := [], m_stop := true } := by
    simp [stopSys, SafeQueue.stop, hempty]
  intro n
  rw [hq]
  induction n with
  | zero => simp [popFlags]
  | succ n ih => simp [popFlags, SafeQueue.pop, ih, List.replicate]

theorem stop_wakes_all_witness :
    (stopSys ({ chan := { m_queue := [], m_stop := false }, blocked := [0, 1, 2] } : ChanSys Nat)).blocked = [] ∧
      popFlags 3 (stopSys ({ chan := { m_queue := [], m_stop := false }, blocked := [0, 1, 2] } : ChanSys Nat)).chan = List.replicate 3 false :=
  ⟨(stop_wakes_all { chan := { m_queue := [], m_stop := false }, blocked := [0, 1, 2] } rfl).2.1,
    (stop_wakes_all { chan := { m_queue := [], m_stop := false }, blocked := [0, 1, 2] } rfl).2.2 3⟩

/-- C4: `push v` on a channel whose stopped flag is already set is a silent
no-op: the state is exactly unchanged (so `v` is discarded, the pending
sequence is untouched), and consequently every later trace of operations —
including every later `pop` — behaves exactly as it would have without the
call, so no later `pop` ever returns `v` because of it. -/
theorem push_after_stop_noop {T : Type} (v : T) (q : SafeQueue T) (h : q.m_stop = true) :
    SafeQueue.push v q = q ∧
      (∀ (a c : List T) (t : Bool) (es : List (Ev T)),
        run { q := SafeQueue.push v q, accepted := a, consumed := c, term := t } es =
          run { q := q, accepted := a, consumed := c, term := t } es) := by
  have hp : SafeQueue.push v q = q := by simp [SafeQueue.push, h]
  exact ⟨hp, fun a c t es => by rw [hp]⟩

theorem push_after_stop_noop_witness :
    SafeQueue.push 7 ({ m_queue := [], m_stop := true } : SafeQueue Nat) =
      { m_queue := [], m_stop := true } :=
  (push_after_stop_noop 7 { m_queue := [], m_stop := true } rfl).1

/-- C5: the stopped flag is monotonic and one-shot: `push` leaves it exactly
as it was, both returning forms of `pop` leave it exactly as it was, `stop`
sets it to true, and a second `stop` produces the very same state as the
first (idempotence). -/
theorem stopped_monotone_one_shot {T : Type} (q : SafeQueue T) (v : T) :
    (SafeQueue.push v q).m_stop = q.m_stop ∧
      (∀ w q1, SafeQueue.pop q = SafeQueue.PopResult.value w q1 → q1.m_stop = q.m_stop) ∧
      (∀ q1, SafeQueue.pop q = SafeQueue.PopResult.stopped q1 → q1.m_stop = q.m_stop) ∧
      (SafeQueue.stop q).m_stop = true ∧
      SafeQueue.stop (SafeQueue.stop q) = SafeQueue.stop q := by
  refine ⟨SafeQueue.push_m_stop v q, ?_, ?_, rfl, rfl⟩
  · intro w q1 h
    exact ((SafeQueue.pop_eq_value_iff q q1 w).mp h).2
  · intro q1 h
    rw [((SafeQueue.pop_eq_stopped_iff q q1).mp h).1]

theorem stopped_monotone_one_shot_witness :
    ({ m_queue := [], m_stop := false } : SafeQueue Nat).m_stop =
      ({ m_queue := [3], m_stop := false } : SafeQueue Nat).m_stop :=
  (stopped_monotone_one_shot { m_queue := [3], m_stop := false } 0).2.1 3
    { m_queue := [], m_stop := false } rfl

/-- C9: when `pop` returns `false` (the termination signal), the channel
state is completely unchanged — the successor state is the argument state
itself, the pending sequence is (still) empty and the stopped flag is (still)
true; the failure branch has no side effect on the channel. -/
theorem pop_false_frame {T : Type} (q q1 : SafeQueue T)
    (h : SafeQueue.pop q = SafeQueue.PopResult.stopped q1) :
    q1 = q ∧ q.m_queue = [] ∧ q.m_stop = true := by
  have hs := (SafeQueue.pop_eq_stopped_iff q q1).mp h
  exact ⟨hs.1, hs.2.2, hs.2.1⟩

theorem pop_false_frame_witness :
    (({ m_queue := [], m_stop := true } : SafeQueue Nat) =
        { m_queue := [], m_stop := true }) ∧
      ({ m_queue := ([] : List Nat), m_stop := true } : SafeQueue Nat).m_queue = [] ∧
      ({ m_queue := ([] : List Nat), m_stop := true } : SafeQueue Nat).m_stop = true :=
  pop_false_frame { m_queue := [], m_stop := true } { m_queue := [], m_stop := true } rfl

theorem filterMap_const_length {α β : Type} (f : α → Bool) (c : β) (l : List α) :
    (l.filterMap fun t => if f t then some c else none).length = (l.filter f).length := by
  induction l with
  | nil => simp
  | cons a l ih => by_cases h : f a <;> simp [h, ih]

theorem filterMap_const_mem {α β : Type} (f : α → Bool) (c : β) (l : List α) :
    ∀ b ∈ l.filterMap fun t => if f t then some c else none, b = c := by
  intro b hb
  rw [List.mem_filterMap] at hb
  obtain ⟨x, _, hx⟩ := hb
  by_cases h : f x
  · simp [h] at hx
    exact hx.symm
  · simp [h] at hx

/-- One worker thread owned by the pool (`std::thread` in `m_threads`):
whether it is still joinable, how many times its body runs the user handler
over its lifetime, and the id of the channel the handler is applied to.
`ThreadPool::worker_loop` (threadPool.cpp) calls
`m_worker_task_func(m_command_queue)` exactly once, so a freshly launched
thread carries `handlerRuns = 1` on the pool's channel. -/
structure WorkerThread where
  joinable : Bool
  handlerRuns : Nat
  chanId : Nat
  deriving DecidableEq, Repr

/-- A thread freshly launched on `ThreadPool::worker_loop`: joinable, and it
will invoke the handler on channel `chanId` exactly once. -/
def spawnWorker (chanId : Nat) : WorkerThread :=
  { joinable := true, handlerRuns := 1, chanId := chanId }

/-- State of `ThreadPool` (ThreadPool.h): the owned `m_threads` vector, the
channel reference `m_command_queue` and handler `m_worker_task_func`
(both opaque to the pool, modelled as ids), the fixed `m_num_threads`, and
the one-shot atomic `m_joined` flag. -/
structure ThreadPool where
  m_threads : List WorkerThread
  m_command_queue : Nat
  m_worker_task_func : Nat
  m_num_threads : Nat
  m_joined : Bool
  deriving DecidableEq, Repr

/-- A thread-lifecycle operation performed by `join` or the destructor:
a (blocking) `std::thread::join` or a `std::thread::detach`. -/
inductive TAct where
  | joinThread
  | detachThread
  deriving DecidableEq, Repr

namespace ThreadPool

/-- `ThreadPool::ThreadPool` (threadPool.cpp): records the configuration —
channel reference, handler, thread count — sets `m_joined` to false, and
creates no thread (the member vector starts empty; threads are launched in
`start`). -/
def construct (num_threads : Nat) (command_queue_ref : Nat) (worker_func : Nat) : ThreadPool :=
  { m_threads := [], m_command_queue := command_queue_ref,
    m_worker_task_func := worker_func, m_num_threads := num_threads, m_joined := false }

/-- `ThreadPool::start` (threadPool.cpp): for `i` in `0..m_num_threads`,
emplace a new thread running `worker_loop` into `m_threads`. -/
def start (p : ThreadPool) : ThreadPool :=
  { p with m_threads :=
      p.m_threads ++ List.replicate p.m_num_threads (spawnWorker p.m_command_queue) }

/-- `ThreadPool::join` (threadPool.cpp): `m_joined.exchange(true)` — if it was
already true, return immediately; otherwise join every joinable thread
(blocking until each exits) and then clear `m_threads`.  Returns the new pool
state and the thread operations performed.  The `catch (std::system_error)`
detach fallback is a platform-failure path outside this model; the normal
path joins. -/
def join (p : ThreadPool) : ThreadPool × List TAct :=
  if p.m_joined then (p, [])
  else
    ({ p with m_joined := true, m_threads := [] },
      p.m_threads.filterMap fun t => if t.joinable then some TAct.joinThread else none)

/-- `ThreadPool::~ThreadPool` (threadPool.cpp): if `m_joined` is set, do
nothing; otherwise print the ERROR diagnostic and detach every still-joinable
thread (making it non-joinable), never joining.  Returns the final field
state, the thread operations performed, and whether the diagnostic was
emitted. -/
def destruct (p : ThreadPool) : ThreadPool × List TAct × Bool :=
  if p.m_joined then (p, [], false)
  else
    ({ p with m_threads :=
        p.m_threads.map fun t => if t.joinable then { t with joinable := false } else t },
      p.m_threads.filterMap fun t => if t.joinable then some TAct.detachThread else none,
      true)

end ThreadPool

/-- C6: destroying the pool with the joined flag still false never attempts a
thread join and never crashes: the destructor performs exactly one detach per
still-joinable owned thread (and nothing else), emits the diagnostic, and
leaves all other state untouched — channel, handler, thread count, flag, and
each thread's handler/channel binding are unchanged. -/
theorem dtor_without_join_detaches (p : ThreadPool) (h : p.m_joined = false) :
    TAct.joinThread ∉ (ThreadPool.destruct p).2.1 ∧
      (ThreadPool.destruct p).2.2 = true ∧
      (ThreadPool.destruct p).2.1.length = (p.m_threads.filter fun t => t.joinable).length ∧
      (∀ a ∈ (ThreadPool.destruct p).2.1, a = TAct.detachThread) ∧
      (ThreadPool.destruct p).1.m_command_queue = p.m_command_queue ∧
      (ThreadPool.destruct p).1.m_worker_task_func = p.m_worker_task_func ∧
      (ThreadPool.destruct p).1.m_num_threads = p.m_num_threads ∧
      (ThreadPool.destruct p).1.m_joined = p.m_joined ∧
      ((ThreadPool.destruct p).1.m_threads.map fun t => (t.handlerRuns, t.chanId)) =
        (p.m_threads.map fun t => (t.handlerRuns, t.chanId)) := by
  have hd : ThreadPool.destruct p =
      ({ p with m_threads :=
          p.m_threads.map fun t => if t.joinable then { t with joinable := false } else t },
        p.m_threads.filterMap fun t => if t.joinable then some TAct.detachThread else none,
        true) := by
    simp [ThreadPool.destruct, h]
  refine ⟨?_, ?_, ?_, ?_, ?_, ?_, ?_, ?_, ?_⟩
  · rw [hd]
    intro hmem
    have := filterMap_const_mem (fun t => t.joinable) TAct.detachThread p.m_threads
      TAct.joinThread hmem
    simp at this
  · rw [hd]
  · rw [hd]
    exact filterMap_const_length (fun t => t.joinable) TAct.detachThread p.m_threads
  · rw [hd]
    exact filterMap_const_mem (fun t => t.joinable) TAct.detachThread p.m_threads
  · rw [hd]
  · rw [hd]
  · rw [hd]
  · rw [hd, h]
  · rw [hd]
    simp only [List.map_map]
    apply List.map_congr_left
    intro t _
    by_cases ht : t.joinable <;> simp [ht]

theorem dtor_without_join_detaches_witness :
    (ThreadPool.destruct { m_threads := [spawnWorker 0], m_command_queue := 0, m_worker_task_func := 4, m_num_threads := 1, m_joined := false }).2.2 = true :=
  (dtor_without_join_detaches { m_threads := [spawnWorker 0], m_command_queue := 0, m_worker_task_func := 4, m_num_threads := 1, m_joined := false } rfl).2.1

/-- C7: join is idempotent via the one-shot joined flag: on a pool not yet
joined, the first call performs one blocking thread join per joinable owned
thread (waiting for every launched worker) and sets the flag; a second call
then returns immediately — no thread operation, state unchanged, no error. -/
theorem join_idempotent (p : ThreadPool) (h : p.m_joined = false) :
    (ThreadPool.join p).2.length = (p.m_threads.filter fun t => t.joinable).length ∧
      (∀ a ∈ (ThreadPool.join p).2, a = TAct.joinThread) ∧
      (ThreadPool.join p).1.m_joined = true ∧
      ThreadPool.join (ThreadPool.join p).1 = ((ThreadPool.join p).1, []) := by
  have hj : ThreadPool.join p =
      ({ p with m_joined := true, m_threads := [] },
        p.m_threads.filterMap fun t => if t.joinable then some TAct.joinThread else none) := by
    simp [ThreadPool.join, h]
  refine ⟨?_, ?_, ?_, ?_⟩
  · rw [hj]
    exact filterMap_const_length (fun t => t.joinable) TAct.joinThread p.m_threads
  · rw [hj]
    exact filterMap_const_mem (fun t => t.joinable) TAct.joinThread p.m_threads
  · rw [hj]
  · rw [hj]
    simp [ThreadPool.join]

theorem join_idempotent_witness :
    ThreadPool.join (ThreadPool.join { m_threads := [spawnWorker 0], m_command_queue := 0, m_worker_task_func := 4, m_num_threads := 1, m_joined := false }).1 =
      ((ThreadPool.join { m_threads := [spawnWorker 0], m_command_queue := 0, m_worker_task_func := 4, m_num_threads := 1, m_joined := false }).1, []) :=
  (join_idempotent { m_threads := [spawnWorker 0], m_command_queue := 0, m_worker_task_func := 4, m_num_threads := 1, m_joined := false } rfl).2.2.2

/-- C8: construction records the thread count, channel reference and handler
and launches no thread (the owned collection is empty, the joined flag
false); `start` then launches exactly `thread_count` threads, each joinable,
each bound to the shared channel, each invoking the handler exactly once. -/
theorem construct_start_launches (n chanRef taskFn : Nat) :
    (ThreadPool.construct n chanRef taskFn).m_threads = [] ∧
      (ThreadPool.construct n chanRef taskFn).m_num_threads = n ∧
      (ThreadPool.construct n chanRef taskFn).m_command_queue = chanRef ∧
      (ThreadPool.construct n chanRef taskFn).m_worker_task_func = taskFn ∧
      (ThreadPool.construct n chanRef taskFn).m_joined = false ∧
      (ThreadPool.start (ThreadPool.construct n chanRef taskFn)).m_threads.length = n ∧
      (∀ t ∈ (ThreadPool.start (ThreadPool.construct n chanRef taskFn)).m_threads,
        t.handlerRuns = 1 ∧ t.chanId = chanRef ∧ t.joinable = true) := by
  refine ⟨rfl, rfl, rfl, rfl, rfl, ?_, ?_⟩
  · simp [ThreadPool.start, ThreadPool.construct]
  · intro t hmem
    simp [ThreadPool.start, ThreadPool.construct, List.eq_of_mem_replicate] at hmem
    rcases hmem with ⟨_, ht⟩
    simp [ht, spawnWorker]

theorem construct_start_launches_witness :
    (ThreadPool.start (ThreadPool.construct 2 5 7)).m_threads.length = 2 ∧
      ((spawnWorker 5).handlerRuns = 1 ∧ (spawnWorker 5).chanId = 5 ∧
        (spawnWorker 5).joinable = true) :=
  ⟨(construct_start_launches 2 5 7).2.2.2.2.2.1,
    (construct_start_launches 2 5 7).2.2.2.2.2.2 (spawnWorker 5) (by decide)⟩

/-- C10: after the first (effective) call to join returns, the owned thread
collection is empty and the joined flag is set; a subsequent destructor call
on the joined pool performs no detach and emits no diagnostic, leaving the
state unchanged. -/
theorem join_then_dtor_silent (p : ThreadPool) (h : p.m_joined = false) :
    (ThreadPool.join p).1.m_threads = [] ∧
      (ThreadPool.join p).1.m_joined = true ∧
      ThreadPool.destruct (ThreadPool.join p).1 = ((ThreadPool.join p).1, [], false) := by
  simp [ThreadPool.join, ThreadPool.destruct, h]

theorem join_then_dtor_silent_witness :
    (ThreadPool.join { m_threads := [spawnWorker 3], m_command_queue := 3, m_worker_task_func := 9, m_num_threads := 1, m_joined := false }).1.m_threads = [] ∧
      (ThreadPool.join { m_threads := [spawnWorker 3], m_command_queue := 3, m_worker_task_func := 9, m_num_threads := 1, m_joined := false }).1.m_joined = true ∧
      ThreadPool.destruct (ThreadPool.join { m_threads := [spawnWorker 3], m_command_queue := 3, m_worker_task_func := 9, m_num_threads := 1, m_joined := false }).1 =
        ((ThreadPool.join { m_threads := [spawnWorker 3], m_command_queue := 3, m_worker_task_func := 9, m_num_threads := 1, m_joined := false }).1, [], false) :=
  join_then_dtor_silent { m_threads := [spawnWorker 3], m_command_queue := 3, m_worker_task_func := 9, m_num_threads := 1, m_joined := false } rfl
